import Mathlib

/-!
Verification of the annotation geometry and interaction engine of the
spec-annotator application.

The definitions below are shallow embeddings of the TypeScript source:

* `Point`, `AnnotationType`, `DisplayFilter`, `Annot` embed the data model of
  `types.ts` (`Annot` embeds the record named `Annotation` there; stored marker
  coordinates are always integers, because every write to a stored point in the
  source either comes from the integer-valued detection normalizer or is passed
  through `Math.round`).
* `sortedAnnotations`, `displayNumbers`, `filteredAnnotations` embed the
  memoized derivations of `App.tsx`.  JavaScript `Array.prototype.sort` is a
  stable sort; `List.insertionSort` is used here because it is the stable sort
  that the Lean kernel can evaluate, and any two stable sorts of the same
  comparator agree.
* `rejectBox`, `normalizeBox`, `detectAndDescribeUI` embed the detection
  normalizer of `services/geminiService.ts`.  The external model call is a
  collaborator: its raw result list is the input of the embedding.
* `QPoint`, `distSq`, `distSqQ`, `getAnnotationAtPos`, `CanvasState`,
  `handleMouseDown`, `handleMouseMove`, `handleMouseUp`, `handleContextMenu`
  embed the pointer state machine of `AnnotationCanvas`.  Pointer positions are
  rationals since the source divides client coordinates by the fit scale.  The
  source compares `Math.sqrt d` with a radius; both sides being nonnegative,
  this is embedded as the equivalent comparison of `d` with the squared radius.
* `addAnnot` and `updateAnnot` embed `addAnnotation` and `updateAnnotation` of
  `App.tsx`; `Date.now()` is an explicit `now` argument, since wall-clock time
  is an external input of the program.
-/

namespace SpecAnnotator

/-- Embeds the `Point` interface of `types.ts` for stored marker coordinates
(always integer pixels, see the module docstring). -/
structure Point where
  x : Int
  y : Int
deriving DecidableEq

/-- Embeds the `AnnotationType` union of `types.ts`. -/
inductive AnnotationType where
  | general
  | actionable
deriving DecidableEq

/-- Embeds the `DisplayFilter` union of `types.ts`. -/
inductive DisplayFilter where
  | all
  | general
  | actionable
deriving DecidableEq

/-- Embeds the `Annotation` record of `types.ts`. -/
structure Annot where
  id : Int
  point : Point
  description : String
  elementType : String
  annotationType : AnnotationType
deriving DecidableEq

/-- The comparator of `sortedAnnotations` in `App.tsx`: the comparator returns
`a.point.y - b.point.y` when the `y` values differ and `a.point.x - b.point.x`
otherwise, so `a` is kept no later than `b` exactly when this relation holds. -/
def annoLE (a b : Annot) : Prop :=
  a.point.y < b.point.y ∨ (a.point.y = b.point.y ∧ a.point.x ≤ b.point.x)

instance : DecidableRel annoLE := fun a b => by
  unfold annoLE; infer_instance

instance : IsTotal Annot annoLE where
  total a b := by unfold annoLE; omega

instance : IsTrans Annot annoLE where
  trans a b c := by unfold annoLE; omega

/-- Embeds the `sortedAnnotations` memo of `App.tsx`: a stable sort of the full
annotation list by the comparator `annoLE`. -/
def sortedAnnotations (annos : List Annot) : List Annot :=
  List.insertionSort annoLE annos

/-- Embeds the loop body of the `displayNumbers` memo of `App.tsx`: walk a list
once, keeping two counters, and emit one `(id, label)` assignment per element.
Labels use `Nat.repr`, which is what `toString` of the template literal does. -/
def numberWalk : Nat → Nat → List Annot → List (Int × String)
  | _, _, [] => []
  | generalCount, actionableCount, a :: rest =>
    match a.annotationType with
    | .general =>
      (a.id, Nat.repr generalCount) :: numberWalk (generalCount + 1) actionableCount rest
    | .actionable =>
      (a.id, "A" ++ Nat.repr actionableCount) :: numberWalk generalCount (actionableCount + 1) rest

/-- Embeds the `displayNumbers` memo of `App.tsx`: the id-to-label assignments
produced by walking the full sorted list with both counters starting at 1. -/
def displayNumbers (annos : List Annot) : List (Int × String) :=
  numberWalk 1 1 (sortedAnnotations annos)

/-- Looks an id up in the assignment list, later assignments shadowing earlier
ones, which is the semantics of the JavaScript object writes in the source. -/
def lookupNumber (m : List (Int × String)) (i : Int) : Option String :=
  (m.reverse.find? (fun p => p.1 == i)).map (fun p => p.2)

/-- Embeds the `filteredAnnotations` memo of `App.tsx`: the sorted list when the
filter is `all`, otherwise the sorted list filtered by annotation type. -/
def filteredAnnotations (annos : List Annot) (f : DisplayFilter) : List Annot :=
  match f with
  | .all => sortedAnnotations annos
  | .general => (sortedAnnotations annos).filter (fun a => decide (a.annotationType = .general))
  | .actionable =>
    (sortedAnnotations annos).filter (fun a => decide (a.annotationType = .actionable))

/-- Whether an annotation passes a display filter; restates the branch
conditions of `filteredAnnotations` for use in theorem statements. -/
def matchesFilter : DisplayFilter → Annot → Bool
  | .all, _ => true
  | .general, a => decide (a.annotationType = .general)
  | .actionable, a => decide (a.annotationType = .actionable)

/-- The pairs actually displayed by a view: each filtered annotation together
with the label looked up in the full-set numbering map. -/
def displayedView (annos : List Annot) (f : DisplayFilter) : List (Int × Option String) :=
  (filteredAnnotations annos f).map (fun a => (a.id, lookupNumber (displayNumbers annos) a.id))

/-! ### Detection normalizer (`services/geminiService.ts`) -/

/-- Embeds the `DetectedObject` interface of `geminiService.ts`.  The corner
fields are optional because the source defends against a missing `topLeft` or
`bottomRight` in the model response. -/
structure DetectedObject where
  topLeft : Option Point
  bottomRight : Option Point
  description : String
  elementType : String

/-- Embeds the `ACTIONABLE_TYPES` constant of `geminiService.ts`. -/
def ACTIONABLE_TYPES : List String :=
  ["button", "link", "tab"]

/-- Embeds the JavaScript `toLowerCase` call of the source as a character-wise
lowercase map. -/
def jsToLower (s : String) : String :=
  (s.data.map Char.toLower).asString

/-- The discard condition of the detection normalizer, exactly the disjunction
tested by the `if` in `detectAndDescribeUI`: a corner is missing, the box has
non-positive width or height, or the box lies entirely outside the image. -/
def rejectBox (w h : Int) (o : DetectedObject) : Bool :=
  match o.topLeft, o.bottomRight with
  | some tl, some br =>
    decide (tl.x ≥ br.x ∨ tl.y ≥ br.y ∨ br.x ≤ 0 ∨ tl.x ≥ w ∨ br.y ≤ 0 ∨ tl.y ≥ h)
  | _, _ => true

/-- Embeds the body of the `map` callback of `detectAndDescribeUI`: discard an
invalid box (returning `none` for the `null` of the source), otherwise clamp,
anchor at the top-right corner, re-clamp, default the element type, classify,
and assign the id `Date.now() + index`. -/
def normalizeBox (w h now : Int) (i : Nat) (o : DetectedObject) : Option Annot :=
  match o.topLeft, o.bottomRight with
  | some tl, some br =>
    if tl.x ≥ br.x ∨ tl.y ≥ br.y ∨ br.x ≤ 0 ∨ tl.x ≥ w ∨ br.y ≤ 0 ∨ tl.y ≥ h then
      none
    else
      let _x1 := max 0 tl.x
      let y1 := max 0 tl.y
      let x2 := min w br.x
      let _y2 := min h br.y
      let centerX := max 0 (min x2 w)
      let centerY := max 0 (min y1 h)
      let elementType := if o.elementType = "" then "other" else o.elementType
      let annotationType : AnnotationType :=
        if ACTIONABLE_TYPES.contains (jsToLower elementType) then .actionable else .general
      some
        { id := now + i
          point := { x := centerX, y := centerY }
          description := o.description
          elementType := elementType
          annotationType := annotationType }
  | _, _ => none

/-- Embeds the batch pipeline of `detectAndDescribeUI`: map each raw box with
its original index through `normalizeBox` and drop the `none` results. -/
def detectAndDescribeUI (w h now : Int) (objs : List DetectedObject) : List Annot :=
  ((objs.enum.map (fun p => normalizeBox w h now p.1 p.2)).filterMap id)

/-! ### Interaction controller (`AnnotationCanvas`) -/

/-- A pointer position in image-intrinsic coordinates.  Rational, because the
source divides client coordinates by the fit scale. -/
structure QPoint where
  x : ℚ
  y : ℚ
deriving DecidableEq

/-- Squared distance from a pointer position to a stored marker point.  The
source compares `Math.sqrt` of this with a radius; both sides nonnegative, the
comparison is embedded against the squared radius. -/
def distSq (p : QPoint) (q : Point) : ℚ :=
  (p.x - (q.x : ℚ)) ^ 2 + (p.y - (q.y : ℚ)) ^ 2

/-- Squared distance between two pointer positions (press and release). -/
def distSqQ (p q : QPoint) : ℚ :=
  (p.x - q.x) ^ 2 + (p.y - q.y) ^ 2

/-- Embeds JavaScript `Math.round`, which is the floor of the argument plus one
half. -/
def jsRound (q : ℚ) : ℤ :=
  ⌊q + 1 / 2⌋

/-- Embeds `getAnnotationAtPos`: scan the displayed list from its last element
to its first (topmost in draw order wins) and return the first marker whose
distance to the position is at most the pick radius 14. -/
def getAnnotationAtPos (annos : List Annot) (pos : QPoint) : Option Annot :=
  annos.reverse.find? (fun a => decide (distSq pos a.point ≤ (14 : ℚ) ^ 2))

/-- The component-local pointer state of `AnnotationCanvas`: the
`draggingAnnotationId` React state and the `dragStartPos` ref. -/
structure CanvasState where
  draggingAnnotationId : Option Int
  dragStartPos : Option QPoint
deriving DecidableEq

/-- Embeds `handleMouseDown` (primary button): record the press position and,
when a marker is hit, record its id as the drag candidate. -/
def handleMouseDown (annos : List Annot) (st : CanvasState) (pos : QPoint) : CanvasState :=
  { dragStartPos := some pos
    draggingAnnotationId :=
      match getAnnotationAtPos annos pos with
      | some clicked => some clicked.id
      | none => st.draggingAnnotationId }

/-- Embeds the mutating part of `handleMouseMove`: while a drag id is recorded,
request an update of that annotation to the rounded cursor position.  The other
branch of the source only sets the cursor affordance and mutates nothing. -/
def handleMouseMove (st : CanvasState) (pos : QPoint) : Option (Int × Point) :=
  match st.draggingAnnotationId with
  | some i => some (i, { x := jsRound pos.x, y := jsRound pos.y })
  | none => none

/-- The externally visible effect of a release: a selection change, an add
request, or nothing. -/
inductive UpAction where
  | select (v : Option Int)
  | add (p : Point)
  | noAction
deriving DecidableEq

/-- Embeds `handleMouseUp` (primary button): reset the pointer state; when the
press-to-release distance is under 5 and `wasDragging` is false, either toggle
the selection of the hit marker or add a new annotation at the rounded release
position.  `wasDragging` is the test `draggingAnnotationId !== null` of the
source, which is true as soon as the press hit a marker. -/
def handleMouseUp (annos : List Annot) (selectedAnnotationId : Option Int)
    (st : CanvasState) (pos : QPoint) : CanvasState × UpAction :=
  let wasDragging : Bool := st.draggingAnnotationId.isSome
  let action : UpAction :=
    match st.dragStartPos with
    | some start =>
      if distSqQ pos start < (5 : ℚ) ^ 2 ∧ wasDragging = false then
        match getAnnotationAtPos annos pos with
        | some clicked =>
          UpAction.select (if selectedAnnotationId = some clicked.id then none else some clicked.id)
        | none => UpAction.add { x := jsRound pos.x, y := jsRound pos.y }
      else UpAction.noAction
    | none => UpAction.noAction
  ({ draggingAnnotationId := none, dragStartPos := none }, action)

/-- Embeds `handleContextMenu`: hit-test the displayed list and raise a delete
request for the hit id, if any. -/
def handleContextMenu (annos : List Annot) (pos : QPoint) : Option Int :=
  (getAnnotationAtPos annos pos).map (fun a => a.id)

/-! ### Annotation store operations (`App.tsx`) -/

/-- Embeds the record built by `addAnnotation` of `App.tsx`; `now` is the
`Date.now()` value and `manualAnnotationType` the configured creation type. -/
def addAnnot (now : Int) (manualAnnotationType : AnnotationType) (p : Point) : Annot :=
  { id := now
    point := p
    description := ""
    elementType := "manual"
    annotationType := manualAnnotationType }

/-- Embeds `updateAnnotation` of `App.tsx` for the partial update used by the
drag path, which replaces only the `point` field of the matching id. -/
def updateAnnot (annos : List Annot) (i : Int) (p : Point) : List Annot :=
  annos.map (fun a => if a.id = i then { a with point := p } else a)

/-! ### Decimal string representations are injective

The labels emitted by `numberWalk` are decimal strings, so distinctness of
labels rests on the injectivity of `Nat.repr`, proved here by evaluating a
digit string back to the number it denotes. -/

/-- Numeric value of a decimal digit character. -/
def digitVal (c : Char) : Nat :=
  c.toNat - 48

/-- Value denoted by a big-endian list of decimal digit characters. -/
def charListVal (l : List Char) : Nat :=
  l.foldl (fun acc c => 10 * acc + digitVal c) 0

lemma charListVal_append_singleton (l : List Char) (c : Char) :
    charListVal (l ++ [c]) = 10 * charListVal l + digitVal c := by
  simp [charListVal, List.foldl_append]

lemma digitVal_digitChar (d : Nat) (h : d < 10) : digitVal (Nat.digitChar d) = d := by
  interval_cases d <;> decide

lemma digitChar_ne_A (d : Nat) (h : d < 10) : Nat.digitChar d ≠ 'A' := by
  interval_cases d <;> decide

lemma toDigitsCore_eta (b : Nat) :
    ∀ (f n : Nat) (ds : List Char),
      Nat.toDigitsCore b f n ds = Nat.toDigitsCore b f n [] ++ ds := by
  intro f
  induction f with
  | zero => intro n ds; simp [Nat.toDigitsCore]
  | succ f ih =>
    intro n ds
    simp only [Nat.toDigitsCore]
    by_cases h : n / b = 0
    · simp [h]
    · simp only [h, if_false]
      rw [ih (n / b) (Nat.digitChar (n % b) :: ds), ih (n / b) [Nat.digitChar (n % b)]]
      simp

lemma charListVal_toDigitsCore :
    ∀ (f n : Nat), n < f → charListVal (Nat.toDigitsCore 10 f n []) = n := by
  intro f
  induction f with
  | zero => intro n hn; omega
  | succ f ih =>
    intro n hn
    simp only [Nat.toDigitsCore]
    by_cases h : n / 10 = 0
    · have hlt : n < 10 := by omega
      simp [h, charListVal, digitVal_digitChar (n % 10) (by omega)]
      omega
    · rw [if_neg h, toDigitsCore_eta, charListVal_append_singleton]
      have hpos : 0 < n := by
        by_contra hc
        exact h (by omega)
      have hdiv : n / 10 < f := by
        have := Nat.div_lt_self hpos (by omega : 1 < 10)
        omega
      rw [ih (n / 10) hdiv, digitVal_digitChar (n % 10) (Nat.mod_lt _ (by omega))]
      omega

lemma ne_A_of_mem_toDigitsCore :
    ∀ (f n : Nat) (c : Char), c ∈ Nat.toDigitsCore 10 f n [] → c ≠ 'A' := by
  intro f
  induction f with
  | zero => intro n c hc; simp [Nat.toDigitsCore] at hc
  | succ f ih =>
    intro n c hc
    simp only [Nat.toDigitsCore] at hc
    by_cases h : n / 10 = 0
    · simp [h] at hc
      exact hc ▸ digitChar_ne_A (n % 10) (Nat.mod_lt _ (by omega))
    · rw [if_neg h, toDigitsCore_eta] at hc
      rcases List.mem_append.mp hc with hm | hm
      · exact ih (n / 10) c hm
      · simp at hm
        exact hm ▸ digitChar_ne_A (n % 10) (Nat.mod_lt _ (by omega))

lemma natRepr_data_injective {m n : Nat} (h : (Nat.repr m).data = (Nat.repr n).data) :
    m = n := by
  have hd : Nat.toDigitsCore 10 (m + 1) m [] = Nat.toDigitsCore 10 (n + 1) n [] := by
    simpa [Nat.repr, Nat.toDigits, List.asString] using h
  have h1 := charListVal_toDigitsCore (m + 1) m (by omega)
  have h2 := charListVal_toDigitsCore (n + 1) n (by omega)
  rw [hd, h2] at h1
  exact h1.symm

lemma natRepr_injective {m n : Nat} (h : Nat.repr m = Nat.repr n) : m = n :=
  natRepr_data_injective (congrArg String.data h)

lemma A_append_ne_repr (s : String) (n : Nat) : "A" ++ s ≠ Nat.repr n := by
  intro h
  have hdata := congrArg String.data h
  simp only [String.data_append, Nat.repr, Nat.toDigits, List.asString] at hdata
  have hA : 'A' ∈ Nat.toDigitsCore 10 (n + 1) n [] := by
    rw [← hdata]
    exact List.mem_cons_self _ _
  exact ne_A_of_mem_toDigitsCore (n + 1) n 'A' hA rfl

/-! ### Properties of the numbering walk -/

lemma numberWalk_fst :
    ∀ (l : List Annot) (g a : Nat),
      (numberWalk g a l).map Prod.fst = l.map (fun x => x.id) := by
  intro l
  induction l with
  | nil => intro g a; rfl
  | cons x rest ih =>
    intro g a
    cases hx : x.annotationType <;> simp [numberWalk, hx, ih]

lemma mem_numberWalk_snd :
    ∀ (l : List Annot) (g a : Nat) (s : String),
      s ∈ (numberWalk g a l).map Prod.snd →
      (∃ k, g ≤ k ∧ s = Nat.repr k) ∨ (∃ k, a ≤ k ∧ s = "A" ++ Nat.repr k) := by
  intro l
  induction l with
  | nil => intro g a s hs; simp [numberWalk] at hs
  | cons x rest ih =>
    intro g a s hs
    cases hx : x.annotationType <;> simp only [numberWalk, hx, List.map_cons, List.mem_cons] at hs
    · rcases hs with rfl | hs
      · exact Or.inl ⟨g, le_refl g, rfl⟩
      · rcases ih (g + 1) a s hs with ⟨k, hk, rfl⟩ | hr
        · exact Or.inl ⟨k, by omega, rfl⟩
        · exact Or.inr hr
    · rcases hs with rfl | hs
      · exact Or.inr ⟨a, le_refl a, rfl⟩
      · rcases ih g (a + 1) s hs with hl | ⟨k, hk, rfl⟩
        · exact Or.inl hl
        · exact Or.inr ⟨k, by omega, rfl⟩

lemma numberWalk_snd_nodup :
    ∀ (l : List Annot) (g a : Nat), ((numberWalk g a l).map Prod.snd).Nodup := by
  intro l
  induction l with
  | nil => intro g a; simp [numberWalk]
  | cons x rest ih =>
    intro g a
    cases hx : x.annotationType <;> simp only [numberWalk, hx, List.map_cons, List.nodup_cons]
    · refine ⟨fun hmem => ?_, ih (g + 1) a⟩
      rcases mem_numberWalk_snd rest (g + 1) a _ hmem with ⟨k, hk, he⟩ | ⟨k, _, he⟩
      · have := natRepr_injective he
        omega
      · exact A_append_ne_repr (Nat.repr k) g he.symm
    · refine ⟨fun hmem => ?_, ih g (a + 1)⟩
      rcases mem_numberWalk_snd rest g (a + 1) _ hmem with ⟨k, _, he⟩ | ⟨k, hk, he⟩
      · exact A_append_ne_repr (Nat.repr a) k he
      · have hdata := congrArg String.data he
        simp only [String.data_append] at hdata
        have : (Nat.repr a).data = (Nat.repr k).data := by simpa using hdata
        have := natRepr_data_injective this
        omega

/-! ### Claim theorems -/

/-- Example annotation set of the spec: a general item at `(x 100, y 50)`, an
actionable item at `(x 10, y 50)` and a general item at `(x 500, y 10)`. -/
def c1a : Annot :=
  { id := 1, point := { x := 100, y := 50 }, description := "", elementType := "text",
    annotationType := .general }

/-- Second example annotation, actionable, at `(x 10, y 50)`. -/
def c1b : Annot :=
  { id := 2, point := { x := 10, y := 50 }, description := "", elementType := "button",
    annotationType := .actionable }

/-- Third example annotation, general, at `(x 500, y 10)`. -/
def c1c : Annot :=
  { id := 3, point := { x := 500, y := 10 }, description := "", elementType := "text",
    annotationType := .general }

/-- C1: for every annotation set, the derived display order is a permutation of
the set sorted by `point.y` ascending with ties broken by `point.x` ascending,
and the labels come from walking that full sorted order once with two
independent counters starting at 1, emitting decimal labels for general items
and `A`-prefixed labels for actionable items; on the example set, the full
order is `(500,10), (10,50), (100,50)` and the labels are `1`, `A1`, `2`. -/
theorem C1_order_and_labels :
    (∀ annos : List Annot,
        (sortedAnnotations annos).Perm annos ∧
          List.Sorted annoLE (sortedAnnotations annos)) ∧
      sortedAnnotations [c1a, c1b, c1c] = [c1c, c1b, c1a] ∧
      displayNumbers [c1a, c1b, c1c] = [(3, "1"), (2, "A1"), (1, "2")] ∧
      lookupNumber (displayNumbers [c1a, c1b, c1c]) 3 = some "1" ∧
      lookupNumber (displayNumbers [c1a, c1b, c1c]) 2 = some "A1" ∧
      lookupNumber (displayNumbers [c1a, c1b, c1c]) 1 = some "2" := by
  refine ⟨fun annos => ⟨List.perm_insertionSort annoLE annos,
    List.sorted_insertionSort annoLE annos⟩, by decide, by decide, by decide, by decide, by decide⟩

/-- C2: when ids are distinct, the full-set numbering map assigns a label to
exactly the ids of the set, with no id and no label repeated (a bijection
between ids and labels), and every filtered view displays each annotation with
exactly the id-label pair it has in the unfiltered view. -/
theorem C2_numbering_bijection_filter_stable (annos : List Annot)
    (h : (annos.map (fun a => a.id)).Nodup) :
    ((displayNumbers annos).map Prod.fst).Perm (annos.map (fun a => a.id)) ∧
      ((displayNumbers annos).map Prod.fst).Nodup ∧
      ((displayNumbers annos).map Prod.snd).Nodup ∧
      ∀ f : DisplayFilter, (displayedView annos f).Sublist (displayedView annos .all) := by
  have hfst : (displayNumbers annos).map Prod.fst =
      (sortedAnnotations annos).map (fun a => a.id) :=
    numberWalk_fst (sortedAnnotations annos) 1 1
  have hperm : ((sortedAnnotations annos).map (fun a => a.id)).Perm
      (annos.map (fun a => a.id)) :=
    (List.perm_insertionSort annoLE annos).map (fun a => a.id)
  refine ⟨hfst ▸ hperm, ?_, numberWalk_snd_nodup (sortedAnnotations annos) 1 1, ?_⟩
  · rw [hfst]
    exact hperm.nodup_iff.mpr h
  · intro f
    cases f with
    | all => exact List.Sublist.refl _
    | general =>
      simp only [displayedView, filteredAnnotations]
      exact (List.filter_sublist _).map _
    | actionable =>
      simp only [displayedView, filteredAnnotations]
      exact (List.filter_sublist _).map _

lemma normalizeBox_eq_none_iff (w h now : Int) (i : Nat) (o : DetectedObject) :
    normalizeBox w h now i o = none ↔ rejectBox w h o = true := by
  rcases o with ⟨tl, br, desc, et⟩
  cases tl with
  | none => simp [normalizeBox, rejectBox]
  | some tlv =>
    cases br with
    | none => simp [normalizeBox, rejectBox]
    | some brv =>
      simp only [normalizeBox, rejectBox]
      split
      · next hcond => simp [hcond]
      · next hcond => simp [hcond]

lemma filterMap_normalize_length (w h now : Int) :
    ∀ (objs : List DetectedObject) (k : Nat),
      ((objs.enumFrom k).filterMap (fun p => normalizeBox w h now p.1 p.2)).length =
        (objs.filter (fun o => !rejectBox w h o)).length := by
  intro objs
  induction objs with
  | nil => intro k; rfl
  | cons o rest ih =>
    intro k
    simp only [List.enumFrom_cons, List.map_cons, List.filterMap_cons, List.filter_cons]
    by_cases hr : rejectBox w h o = true
    · have hn : normalizeBox w h now k o = none :=
        (normalizeBox_eq_none_iff w h now k o).mpr hr
      simp [hn, hr, ih (k + 1)]
    · have hn : normalizeBox w h now k o ≠ none := fun hc =>
        hr ((normalizeBox_eq_none_iff w h now k o).mp hc)
      rcases Option.ne_none_iff_exists'.mp hn with ⟨a, ha⟩
      simp [ha, hr, ih (k + 1)]

/-- C4: a raw box is discarded, silently and without any partial record,
exactly when a corner is missing, the box has non-positive width or height, or
the box lies entirely outside the image; the batch output has one record per
accepted box, and is empty exactly when every box of the batch is rejected. -/
theorem C4_discard_iff (w h now : Int) (objs : List DetectedObject) :
    (∀ (i : Nat) (o : DetectedObject),
        normalizeBox w h now i o = none ↔ rejectBox w h o = true) ∧
      (detectAndDescribeUI w h now objs).length =
        (objs.filter (fun o => !rejectBox w h o)).length ∧
      (detectAndDescribeUI w h now objs = [] ↔ ∀ o ∈ objs, rejectBox w h o = true) := by
  have hlen : (detectAndDescribeUI w h now objs).length =
      (objs.filter (fun o => !rejectBox w h o)).length := by
    simpa [detectAndDescribeUI, List.enum] using filterMap_normalize_length w h now objs 0
  refine ⟨fun i o => normalizeBox_eq_none_iff w h now i o, hlen, ?_⟩
  have h0 : detectAndDescribeUI w h now objs = [] ↔
      objs.filter (fun o => !rejectBox w h o) = [] := by
    rw [← List.length_eq_zero, ← List.length_eq_zero, hlen]
  rw [h0, List.filter_eq_nil_iff]
  simp

/-- C5: every accepted raw box has both corners clamped into the image bounds,
and the resulting anchor point is the top-right corner of the clamped box,
re-clamped into bounds (which leaves it unchanged). -/
theorem C5_anchor_top_right (w h now : Int) (i : Nat) (tl br : Point) (desc et : String)
    (a : Annot) (hw : 0 ≤ w) (hh : 0 ≤ h)
    (hacc : normalizeBox w h now i ⟨some tl, some br, desc, et⟩ = some a) :
    (0 ≤ max 0 tl.x ∧ max 0 tl.x ≤ w ∧ 0 ≤ max 0 tl.y ∧ max 0 tl.y ≤ h ∧
        0 ≤ min w br.x ∧ min w br.x ≤ w ∧ 0 ≤ min h br.y ∧ min h br.y ≤ h) ∧
      a.point.x = max 0 (min (min w br.x) w) ∧
      a.point.y = max 0 (min (max 0 tl.y) h) ∧
      a.point.x = min w br.x ∧
      a.point.y = max 0 tl.y := by
  simp only [normalizeBox] at hacc
  split at hacc
  · exact absurd hacc (by simp)
  · next hcond =>
    simp only [Option.some.injEq] at hacc
    subst hacc
    dsimp only
    refine ⟨by omega, rfl, rfl, by omega, by omega⟩

/-- C6: every accepted raw box gets a blank element type replaced by `other`,
and is classified actionable exactly when its lowercased (defaulted) element
type is in the fixed actionable set, general otherwise. -/
theorem C6_classification (w h now : Int) (i : Nat) (tl br : Point) (desc et : String)
    (a : Annot)
    (hacc : normalizeBox w h now i ⟨some tl, some br, desc, et⟩ = some a) :
    a.elementType = (if et = "" then "other" else et) ∧
      (a.annotationType = .actionable ↔
        ACTIONABLE_TYPES.contains (jsToLower (if et = "" then "other" else et)) = true) ∧
      (a.annotationType = .general ↔
        ACTIONABLE_TYPES.contains (jsToLower (if et = "" then "other" else et)) = false) := by
  simp only [normalizeBox] at hacc
  split at hacc
  · exact absurd hacc (by simp)
  · simp only [Option.some.injEq] at hacc
    subst hacc
    dsimp only
    refine ⟨rfl, ?_, ?_⟩ <;>
      by_cases hc : ACTIONABLE_TYPES.contains (jsToLower (if et = "" then "other" else et)) = true <;>
        simp [hc]

/-- Raw box of the C5 example: corners `(700, 10)` and `(900, 50)`. -/
def c5box : DetectedObject :=
  { topLeft := some { x := 700, y := 10 }, bottomRight := some { x := 900, y := 50 },
    description := "", elementType := "button" }

/-- Normalized record for `c5box` on an 800 by 600 image at time 1000. -/
def c5out : Annot :=
  { id := 1000, point := { x := 800, y := 10 }, description := "", elementType := "button",
    annotationType := .actionable }

/-- Witness for C5: the example box of the spec lands at anchor `(800, 10)`. -/
theorem C5_witness :
    (0 : Int) ≤ 800 ∧ (0 : Int) ≤ 600 ∧
      normalizeBox 800 600 1000 0 c5box = some c5out ∧
      c5out.point.x = 800 ∧ c5out.point.y = 10 := by
  have h := C5_anchor_top_right 800 600 1000 0 { x := 700, y := 10 } { x := 900, y := 50 }
    "" "button" c5out (by decide) (by decide) (by decide)
  exact ⟨by decide, by decide, by decide, h.2.2.2.1.trans (by decide), h.2.2.2.2.trans (by decide)⟩

/-- Raw box with element type `tab`. -/
def c6TabBox : DetectedObject :=
  { topLeft := some { x := 100, y := 200 }, bottomRight := some { x := 180, y := 232 },
    description := "", elementType := "tab" }

/-- Normalized record for `c6TabBox`. -/
def c6TabOut : Annot :=
  { id := 1000, point := { x := 180, y := 200 }, description := "", elementType := "tab",
    annotationType := .actionable }

/-- Raw box with element type `input`. -/
def c6InputBox : DetectedObject :=
  { topLeft := some { x := 100, y := 200 }, bottomRight := some { x := 180, y := 232 },
    description := "", elementType := "input" }

/-- Normalized record for `c6InputBox`. -/
def c6InputOut : Annot :=
  { id := 1000, point := { x := 180, y := 200 }, description := "", elementType := "input",
    annotationType := .general }

/-- Witness for C6: `tab` classifies as actionable and `input` as general. -/
theorem C6_witness :
    normalizeBox 800 600 1000 0 c6TabBox = some c6TabOut ∧
      c6TabOut.annotationType = .actionable ∧
      normalizeBox 800 600 1000 0 c6InputBox = some c6InputOut ∧
      c6InputOut.annotationType = .general := by
  refine ⟨by decide, ?_, by decide, ?_⟩
  · exact (C6_classification 800 600 1000 0 { x := 100, y := 200 } { x := 180, y := 232 }
      "" "tab" c6TabOut (by decide)).2.1.mpr (by decide)
  · exact (C6_classification 800 600 1000 0 { x := 100, y := 200 } { x := 180, y := 232 }
      "" "input" c6InputOut (by decide)).2.2.mpr (by decide)

/-- Witness for C2 at the example annotation set. -/
theorem C2_witness :
    ([c1a, c1b, c1c].map (fun a => a.id)).Nodup ∧
      (((displayNumbers [c1a, c1b, c1c]).map Prod.fst).Perm
          ([c1a, c1b, c1c].map (fun a => a.id)) ∧
        ((displayNumbers [c1a, c1b, c1c]).map Prod.fst).Nodup ∧
        ((displayNumbers [c1a, c1b, c1c]).map Prod.snd).Nodup ∧
        ∀ f : DisplayFilter,
          (displayedView [c1a, c1b, c1c] f).Sublist (displayedView [c1a, c1b, c1c] .all)) :=
  ⟨by decide, C2_numbering_bijection_filter_stable [c1a, c1b, c1c] (by decide)⟩

lemma handleMouseUp_select_id (annos : List Annot) (sel : Option Int) (st : CanvasState)
    (pos : QPoint) (j : Int)
    (h : (handleMouseUp annos sel st pos).2 = UpAction.select (some j)) :
    ∃ b, getAnnotationAtPos annos pos = some b ∧ j = b.id := by
  obtain ⟨did, dsp⟩ := st
  unfold handleMouseUp at h
  dsimp only at h
  cases dsp with
  | none => simp at h
  | some start =>
    dsimp only at h
    by_cases hcond : distSqQ pos start < (5 : ℚ) ^ 2 ∧ (Option.isSome did) = false
    · rw [if_pos hcond] at h
      cases hg : getAnnotationAtPos annos pos with
      | none => rw [hg] at h; simp at h
      | some b =>
        rw [hg] at h
        dsimp only at h
        refine ⟨b, rfl, ?_⟩
        by_cases hselb : sel = some b.id
        · rw [if_pos hselb] at h; simp at h
        · rw [if_neg hselb] at h
          simp at h
          exact h.symm
    · rw [if_neg hcond] at h; simp at h

/-- Marker of the C3 scenario, at `(100, 100)` with id 7. -/
def c3marker : Annot :=
  { id := 7, point := { x := 100, y := 100 }, description := "", elementType := "button",
    annotationType := .actionable }

/-- Pointer position of the C3 scenario, exactly on the marker. -/
def c3pos : QPoint :=
  { x := 100, y := 100 }

/-- C3 is violated by the code: pressing and releasing the primary button at
the very same position on an existing marker (distance 0, no move event ever
fired) produces no selection toggle, because the press already recorded the
marker id as drag candidate and the release treats that as `wasDragging`.  The
spec (and the in-app help text) says such a click toggles the selection of the
hit marker. -/
theorem C3_click_on_marker_does_not_toggle :
    getAnnotationAtPos [c3marker] c3pos = some c3marker ∧
      distSqQ c3pos c3pos < (5 : ℚ) ^ 2 ∧
      handleMouseDown [c3marker] { draggingAnnotationId := none, dragStartPos := none } c3pos =
        { draggingAnnotationId := some 7, dragStartPos := some c3pos } ∧
      (handleMouseUp [c3marker]
          none { draggingAnnotationId := some 7, dragStartPos := some c3pos } c3pos).2 =
        UpAction.noAction := by
  have hhit : getAnnotationAtPos [c3marker] c3pos = some c3marker := by
    simp [getAnnotationAtPos, List.find?, distSq, c3marker, c3pos]
  refine ⟨hhit, by norm_num [distSqQ, c3pos], ?_, ?_⟩
  · simp only [handleMouseDown, hhit]
    rfl
  · simp [handleMouseUp]

/-- C7: a press that hits no marker followed by a release within distance 5
that also hits no marker emits exactly one add request, at the rounded release
position, and the added record has the configured manual type, element type
`manual`, an empty description, and extends the store by exactly one entry. -/
theorem C7_click_empty_adds (displayed annos : List Annot) (sel : Option Int)
    (now : Int) (mt : AnnotationType) (p0 p1 : QPoint)
    (h0 : getAnnotationAtPos displayed p0 = none)
    (hd : distSqQ p1 p0 < (5 : ℚ) ^ 2)
    (h1 : getAnnotationAtPos displayed p1 = none) :
    (handleMouseUp displayed sel
        (handleMouseDown displayed { draggingAnnotationId := none, dragStartPos := none } p0)
        p1).2 =
        UpAction.add { x := jsRound p1.x, y := jsRound p1.y } ∧
      addAnnot now mt { x := jsRound p1.x, y := jsRound p1.y } =
        { id := now, point := { x := jsRound p1.x, y := jsRound p1.y }, description := "",
          elementType := "manual", annotationType := mt } ∧
      (annos ++ [addAnnot now mt { x := jsRound p1.x, y := jsRound p1.y }]).length =
        annos.length + 1 := by
  have hst : handleMouseDown displayed { draggingAnnotationId := none, dragStartPos := none } p0 =
      { draggingAnnotationId := none, dragStartPos := some p0 } := by
    simp [handleMouseDown, h0]
  rw [hst]
  refine ⟨?_, rfl, by simp⟩
  simp [handleMouseUp, h1, hd]

/-- Release position of the C7 witness scenario. -/
def c7pos : QPoint :=
  { x := 300, y := 400 }

/-- Witness for C7: a click on empty space at `(300, 400)` adds one record with
exactly that point. -/
theorem C7_witness :
    getAnnotationAtPos [] c7pos = none ∧
      distSqQ c7pos c7pos < (5 : ℚ) ^ 2 ∧
      (handleMouseUp [] none
          (handleMouseDown [] { draggingAnnotationId := none, dragStartPos := none } c7pos)
          c7pos).2 =
        UpAction.add { x := 300, y := 400 } ∧
      ([] ++ [addAnnot 1000 .general { x := 300, y := 400 }]).length = 1 := by
  have h300 : jsRound ((300 : ℚ)) = 300 := by
    rw [jsRound, Int.floor_eq_iff]
    norm_num
  have h400 : jsRound ((400 : ℚ)) = 400 := by
    rw [jsRound, Int.floor_eq_iff]
    norm_num
  have h := C7_click_empty_adds [] [] none 1000 .general c7pos c7pos rfl
    (by norm_num [distSqQ, c7pos]) rfl
  refine ⟨rfl, by norm_num [distSqQ, c7pos], ?_, by simp⟩
  rw [h.1]
  simp [c7pos, h300, h400]

/-- C8: while a drag of id `i` is recorded, every move event requests an update
of exactly that id to the rounded cursor position; the update rewrites only the
point field of the matching records, creates and deletes nothing, and leaves
every other record untouched; and a release at squared distance at least 25
performs no additional add or select action. -/
theorem C8_drag_updates_only_target (st : CanvasState) (i : Int)
    (hst : st.draggingAnnotationId = some i) :
    (∀ q : QPoint, handleMouseMove st q = some (i, { x := jsRound q.x, y := jsRound q.y })) ∧
      (∀ (annos : List Annot) (p : Point),
        (updateAnnot annos i p).length = annos.length ∧
          (∀ a ∈ annos, a.id ≠ i → a ∈ updateAnnot annos i p) ∧
          (∀ a' ∈ updateAnnot annos i p, ∃ a ∈ annos,
            a'.id = a.id ∧ a'.description = a.description ∧
              a'.elementType = a.elementType ∧ a'.annotationType = a.annotationType ∧
              (a.id ≠ i → a' = a) ∧ (a.id = i → a' = { a with point := p }))) ∧
      (∀ (displayed : List Annot) (sel : Option Int) (pos start : QPoint),
        st.dragStartPos = some start → (5 : ℚ) ^ 2 ≤ distSqQ pos start →
          (handleMouseUp displayed sel st pos).2 = UpAction.noAction) := by
  refine ⟨?_, ?_, ?_⟩
  · intro q
    simp [handleMouseMove, hst]
  · intro annos p
    refine ⟨by simp [updateAnnot], ?_, ?_⟩
    · intro a ha hne
      simp only [updateAnnot, List.mem_map]
      exact ⟨a, ha, by simp [hne]⟩
    · intro a' ha'
      rcases List.mem_map.mp ha' with ⟨a, ha, hEq⟩
      refine ⟨a, ha, ?_⟩
      by_cases hid : a.id = i
      · rw [if_pos hid] at hEq
        subst hEq
        exact ⟨hid ▸ rfl, rfl, rfl, rfl, fun hn => absurd hid hn, fun _ => rfl⟩
      · rw [if_neg hid] at hEq
        subst hEq
        exact ⟨rfl, rfl, rfl, rfl, fun _ => rfl, fun hc => absurd hc hid⟩
  · intro displayed sel pos start hsp hdist
    simp [handleMouseUp, hsp, hst]

/-- Canvas state of the C8 witness scenario: dragging id 1, press at
`(100, 100)`. -/
def c8st : CanvasState :=
  { draggingAnnotationId := some 1, dragStartPos := some { x := 100, y := 100 } }

/-- Witness for C8: a move to `(500, 500)` updates id 1 to exactly that point,
and the far release produces no further action. -/
theorem C8_witness :
    handleMouseMove c8st { x := 500, y := 500 } = some (1, { x := 500, y := 500 }) ∧
      (handleMouseUp [] none c8st { x := 500, y := 500 }).2 = UpAction.noAction := by
  have h := C8_drag_updates_only_target c8st 1 rfl
  constructor
  · have h500 : jsRound ((500 : ℚ)) = 500 := by
      rw [jsRound, Int.floor_eq_iff]
      norm_num
    rw [h.1 { x := 500, y := 500 }]
    simp [h500]
  · exact h.2.2 [] none { x := 500, y := 500 } { x := 100, y := 100 } rfl
      (by norm_num [distSqQ])

/-- First raw box of the C9 batch. -/
def c9boxA : DetectedObject :=
  { topLeft := some { x := 10, y := 10 }, bottomRight := some { x := 50, y := 50 },
    description := "", elementType := "button" }

/-- Second raw box of the C9 batch. -/
def c9boxB : DetectedObject :=
  { topLeft := some { x := 100, y := 100 }, bottomRight := some { x := 150, y := 150 },
    description := "", elementType := "text" }

/-- C9 is violated by the code: ids are wall-clock derived, so two manual add
gestures landing in the same `Date.now()` millisecond produce two distinct
records with the same id, and a detection batch at time 1000 produces id 1001
which a manual add at time 1001 then reuses. -/
theorem C9_id_collision :
    (addAnnot 1000 .general { x := 10, y := 10 }).id =
        (addAnnot 1000 .actionable { x := 500, y := 500 }).id ∧
      addAnnot 1000 .general { x := 10, y := 10 } ≠
        addAnnot 1000 .actionable { x := 500, y := 500 } ∧
      (detectAndDescribeUI 800 600 1000 [c9boxA, c9boxB]).map (fun a => a.id) = [1000, 1001] ∧
      (addAnnot 1001 .general { x := 20, y := 20 }).id = 1001 := by
  exact ⟨rfl, by decide, by decide, rfl⟩

/-- C10: hit-testing runs only over the filtered list, so every hit passes the
active filter, lies in the store and is within the squared pick radius; hence
no context-menu delete request, no drag candidate recorded at press, and no
selection toggle at release can ever target an annotation the filter excludes
(given session-unique ids). -/
theorem C10_filter_excludes_gestures (annos : List Annot) (f : DisplayFilter)
    (pos : QPoint) (st : CanvasState)
    (hids : (annos.map (fun a => a.id)).Nodup)
    (hst : st.draggingAnnotationId = none) :
    (∀ b, getAnnotationAtPos (filteredAnnotations annos f) pos = some b →
        matchesFilter f b = true ∧ b ∈ annos ∧ distSq pos b.point ≤ (14 : ℚ) ^ 2) ∧
      ∀ a ∈ annos, matchesFilter f a = false →
        handleContextMenu (filteredAnnotations annos f) pos ≠ some a.id ∧
          (handleMouseDown (filteredAnnotations annos f) st pos).draggingAnnotationId ≠
            some a.id ∧
          ∀ (sel : Option Int) (st1 : CanvasState),
            (handleMouseUp (filteredAnnotations annos f) sel st1 pos).2 ≠
              UpAction.select (some a.id) := by
  have hhit : ∀ b, getAnnotationAtPos (filteredAnnotations annos f) pos = some b →
      matchesFilter f b = true ∧ b ∈ annos ∧ distSq pos b.point ≤ (14 : ℚ) ^ 2 := by
    intro b hb
    have hb' : (filteredAnnotations annos f).reverse.find?
        (fun a => decide (distSq pos a.point ≤ (14 : ℚ) ^ 2)) = some b := hb
    have hmem' : b ∈ filteredAnnotations annos f :=
      List.mem_reverse.mp (List.mem_of_find?_eq_some hb')
    have hpred := List.find?_some hb'
    have hdist : distSq pos b.point ≤ (14 : ℚ) ^ 2 := by simpa using hpred
    have hmatch : matchesFilter f b = true := by
      cases f with
      | all => rfl
      | general =>
        simp only [filteredAnnotations] at hmem'
        simpa [matchesFilter] using (List.mem_filter.mp hmem').2
      | actionable =>
        simp only [filteredAnnotations] at hmem'
        simpa [matchesFilter] using (List.mem_filter.mp hmem').2
    have hmema : b ∈ annos := by
      cases f with
      | all =>
        simpa [filteredAnnotations, sortedAnnotations] using hmem'
      | general =>
        simp only [filteredAnnotations] at hmem'
        have := (List.mem_filter.mp hmem').1
        simpa [sortedAnnotations] using this
      | actionable =>
        simp only [filteredAnnotations] at hmem'
        have := (List.mem_filter.mp hmem').1
        simpa [sortedAnnotations] using this
    exact ⟨hmatch, hmema, hdist⟩
  refine ⟨hhit, ?_⟩
  intro a ha hfa
  have hne : ∀ b, getAnnotationAtPos (filteredAnnotations annos f) pos = some b →
      b.id ≠ a.id := by
    intro b hb hid
    rcases hhit b hb with ⟨hmb, hbm, _⟩
    have hba : b = a := List.inj_on_of_nodup_map hids hbm ha hid
    rw [hba, hfa] at hmb
    exact Bool.false_ne_true hmb
  refine ⟨?_, ?_, ?_⟩
  · intro hc
    unfold handleContextMenu at hc
    cases hg : getAnnotationAtPos (filteredAnnotations annos f) pos with
    | none => rw [hg] at hc; simp at hc
    | some b =>
      rw [hg] at hc
      simp only [Option.map_some', Option.some.injEq] at hc
      exact hne b hg hc
  · intro hc
    unfold handleMouseDown at hc
    dsimp only at hc
    cases hg : getAnnotationAtPos (filteredAnnotations annos f) pos with
    | none => rw [hg] at hc; rw [hst] at hc; exact Option.noConfusion hc
    | some b =>
      rw [hg] at hc
      simp only [Option.some.injEq] at hc
      exact hne b hg hc
  · intro sel st1 hc
    rcases handleMouseUp_select_id (filteredAnnotations annos f) sel st1 pos a.id hc with
      ⟨b, hg, hj⟩
    exact hne b hg hj.symm

/-- A general annotation used in the C10 witness. -/
def c10anno : Annot :=
  { id := 1, point := { x := 0, y := 0 }, description := "", elementType := "text",
    annotationType := .general }

/-- Witness for C10: with the actionable-only filter active, a right-click
directly on the general marker at the cursor cannot request its deletion. -/
theorem C10_witness :
    ([c10anno].map (fun a => a.id)).Nodup ∧
      matchesFilter .actionable c10anno = false ∧
      distSq { x := 0, y := 0 } c10anno.point ≤ (14 : ℚ) ^ 2 ∧
      handleContextMenu (filteredAnnotations [c10anno] .actionable) { x := 0, y := 0 } ≠
        some c10anno.id := by
  have h := C10_filter_excludes_gestures [c10anno] .actionable { x := 0, y := 0 }
    { draggingAnnotationId := none, dragStartPos := none } (by decide) rfl
  refine ⟨by decide, by decide, by norm_num [distSq, c10anno], ?_⟩
  exact (h.2 c10anno (by simp) (by decide)).1

end SpecAnnotator
